import Mathlib

/-!
Verification development for the ab12phylo alignment-trim-concatenate
pipeline (`ab12phylo/msa.py` and `ab12phylo/gtk_gbl.py`).

Modelling conventions:
* Python `n // k` on non-negative ints is `Nat` division.
* `int(n * 0.9)` and `int(n * 0.85)` are modelled as `9 * n / 10` and
  `17 * n / 20` (exact rational arithmetic; equal to the Python float
  results for every realistic sample count).
* Python strings handled character-by-character are modelled as
  `List Char`; sample and gene identifiers stay `String`.
-/

/-- The Gblocks preset enumeration shared by `msa.py trim_msa`
(`gblocks_mode`) and `gtk_gbl.py re_preset` (`mode`). -/
inductive GblMode where
  | skip
  | relaxed
  | balanced
  | default
  | strict
deriving DecidableEq, Repr

/-- The four numeric/char parameters `msa.py trim_msa` computes and passes to
the external Gblocks call: `-b1=cons -b2=flank -b4=b4 -b5=gaps`. -/
structure TrimParams where
  cons : Nat
  flank : Nat
  gaps : Char
  b4 : Nat
deriving DecidableEq, Repr

/-- What `msa.py trim_msa` does for a given preset: either copy the raw
alignment through unchanged (`skip` branch, `shutil.copy`) or invoke the
external Gblocks binary with computed parameters. -/
inductive TrimAction where
  | copyRaw
  | runGblocks (p : TrimParams)
deriving DecidableEq, Repr

/-- `msa.py trim_msa` parameter computation (lines 121-168).  `b4` starts at 5
and is raised to 10 only in the `default` branch; the final `else` branch
(strict) leaves it at 5, mirroring the source.  `int(seq_count*0.9)` and
`int(seq_count*0.85)` are modelled as exact `Nat` division (see header). -/
def trim_msa (gblocks_mode : GblMode) (seq_count : Nat) : TrimAction :=
  match gblocks_mode with
  | GblMode.skip => TrimAction.copyRaw
  | GblMode.relaxed =>
      let cons := seq_count / 2 + 1
      TrimAction.runGblocks ⟨cons, cons, 'h', 5⟩
  | GblMode.balanced =>
      TrimAction.runGblocks
        ⟨seq_count / 2 + 1, min (seq_count / 4 * 3 + 1) seq_count, 'h', 5⟩
  | GblMode.default =>
      TrimAction.runGblocks
        ⟨seq_count / 2 + 1, min (17 * seq_count / 20 + 1) seq_count, 'n', 10⟩
  | GblMode.strict =>
      let cons := 9 * seq_count / 10
      TrimAction.runGblocks ⟨cons, cons, 'n', 5⟩

/-- The content of the per-gene trimmed alignment file `<gene>_msa.fasta`
produced by `trim_msa`: the `skip` branch copies the raw alignment file
(`shutil.copy(raw_msa, ...)`), every other branch moves the external tool's
output into place (`shutil.move(raw_msa + '.txt', ...)`). -/
def trim_msa_file (gblocks_mode : GblMode) (seq_count : Nat)
    (raw gblocksOut : List Char) : List Char :=
  match trim_msa gblocks_mode seq_count with
  | TrimAction.copyRaw => raw
  | TrimAction.runGblocks _ => gblocksOut

/-- The five trimming parameters `gtk_gbl.py re_preset` computes for a
non-skip preset (lines 136-161). -/
structure PresetParams where
  conserved : Nat
  flank : Nat
  gaps : String
  good_block : Nat
  bad_block : Nat
deriving DecidableEq, Repr

/-- `gtk_gbl.py re_preset` (lines 136-161): preset -> parameters given the
sample count `n_seqs`; `skip` computes nothing (early return). -/
def re_preset (mode : GblMode) (n_seqs : Nat) : Option PresetParams :=
  match mode with
  | GblMode.skip => none
  | GblMode.relaxed =>
      let conserved := n_seqs / 2 + 1
      some ⟨conserved, conserved, "half", 5, 8⟩
  | GblMode.balanced =>
      some ⟨n_seqs / 2 + 1, min (n_seqs / 4 * 3 + 1) n_seqs, "half", 5, 8⟩
  | GblMode.default =>
      some ⟨n_seqs / 2 + 1, min (17 * n_seqs / 20 + 1) n_seqs, "none", 10, 8⟩
  | GblMode.strict =>
      let conserved := 9 * n_seqs / 10
      some ⟨conserved, conserved, "none", 10, 8⟩

/-- Modelled from the spec: the preset table of §4.2 (conserved-minimum,
flank-minimum, gap policy, good-block-minimum, bad-block-maximum per preset),
written from the spec's words for comparison with the code. -/
def specPresetTable (mode : GblMode) (n : Nat) : Option PresetParams :=
  match mode with
  | GblMode.skip => none
  | GblMode.relaxed => some ⟨n / 2 + 1, n / 2 + 1, "half", 5, 8⟩
  | GblMode.balanced =>
      some ⟨n / 2 + 1, min (n / 4 * 3 + 1) n, "half", 5, 8⟩
  | GblMode.default =>
      some ⟨n / 2 + 1, min (17 * n / 20 + 1) n, "none", 10, 8⟩
  | GblMode.strict => some ⟨9 * n / 10, 9 * n / 10, "none", 10, 8⟩

/-- Abbreviation of the gap-policy word used by `re_preset` / the spec table
to the single character `msa.py` passes as `-b5`
(`iface.gaps.get_active_text()[0]` in `start_gbl`). -/
def gapsAbbrev (s : String) : Char :=
  if s = "half" then 'h' else 'n'

/-- The good-block-minimum the external trimmer is invoked with, extracted
from a `trim_msa` action (the `-b4` argument), if the trimmer runs at all. -/
def goodBlockOf : TrimAction → Option Nat
  | TrimAction.copyRaw => none
  | TrimAction.runGblocks p => some p.b4

/-- `conserved ≤ flank ≤ n` for the parameters `re_preset` computes. -/
def presetOrdered (mode : GblMode) (n : Nat) : Prop :=
  ∀ p ∈ re_preset mode n, p.conserved ≤ p.flank ∧ p.flank ≤ n

instance (mode : GblMode) (n : Nat) : Decidable (presetOrdered mode n) := by
  unfold presetOrdered; infer_instance

/-- `cons ≤ flank ≤ n` for the parameters `trim_msa` passes to Gblocks. -/
def trimOrdered (mode : GblMode) (n : Nat) : Prop :=
  ∀ p : TrimParams, trim_msa mode n = TrimAction.runGblocks p →
    p.cons ≤ p.flank ∧ p.flank ≤ n

instance (mode : GblMode) (n : Nat) : Decidable (trimOrdered mode n) := by
  unfold trimOrdered
  cases h : trim_msa mode n with
  | copyRaw => exact Decidable.isTrue (by intro p hp; simp_all)
  | runGblocks q =>
      by_cases hq : q.cons ≤ q.flank ∧ q.flank ≤ n
      · exact Decidable.isTrue (by intro p hp; cases hp; exact hq)
      · exact Decidable.isFalse (fun hall => hq (hall q rfl))

/-- A GTK adjustment as used on the trimming page: current value with its
lower/upper bounds (spin buttons with integer steps). -/
structure Adj where
  value : Nat
  lower : Nat
  upper : Nat
deriving DecidableEq, Repr

/-- `gtk_gbl.py edit` (lines 173-183), the branch where the conserved
adjustment changed: the flank adjustment is reconfigured to
`(max(conserved.value, flank.value), conserved.value, flank.upper)`. -/
def edit (conserved flank : Adj) : Adj :=
  { value := max conserved.value flank.value
    lower := conserved.value
    upper := flank.upper }

/-- The Gblocks command-line parameters built by `gtk_gbl.py`:
`-b1=cons -b2=flank -b3=bad -b4=good -b5=gaps` (do_gbl line 254, fed from
`iface.tempspace.params = [cons, flank, bad, good, gaps]`). -/
structure GblCall where
  b1 : Nat
  b2 : Nat
  b3 : Nat
  b4 : Nat
  b5 : Char
deriving DecidableEq, Repr

/-- `gtk_gbl.py start_gbl` (lines 204-212): reads the adjustment values,
applies the failsafe `if flank < cons: flank = cons`, and stores
`params = [cons, flank, bad, good, gaps]` used verbatim as
`-b1 -b2 -b3 -b4 -b5` by the Gblocks call in `do_gbl`. -/
def start_gbl (cons flank good bad : Nat) (gaps : Char) : GblCall :=
  let flank := if flank < cons then cons else flank
  ⟨cons, flank, bad, good, gaps⟩

/-!
## Concatenation (`msa.py concat_msa`, lines 173-231)

A gene's trimmed alignment is read into a dict `{record.id: record}`;
modelled as an association list with (for actual FASTA dicts) pairwise
distinct keys.  Python's `set(...)` iteration over the first gene's keys is
modelled in insertion order; all claims about it are order-insensitive.
`random.choice` (used only to measure a gene's width for `msa_len`) is
modelled as picking the first record, which is immaterial for rectangular
alignments.
-/

/-- One gene's trimmed alignment held in memory: gene name plus the records
dict `{record.id: sequence}` in insertion order. -/
structure Aln where
  gene : String
  recs : List (String × List Char)
deriving DecidableEq, Repr

/-- The key set (`all_records[gene].keys()`) in insertion order. -/
def keysOf (recs : List (String × List Char)) : List String :=
  recs.map Prod.fst

/-- The width of a gene's alignment as `concat_msa` measures it:
the length of one (modelled: the first) record. -/
def alnWidth (g : Aln) : Nat :=
  match g.recs with
  | [] => 0
  | p :: _ => p.2.length

/-- Python `dict.pop(key)` on an association list: returns the value stored
under `s` (if any) and the list with that single entry removed. -/
def popRec (s : String) : List (String × List Char) →
    Option (List Char) × List (String × List Char)
  | [] => (none, [])
  | p :: ps =>
      if p.1 = s then (some p.2, ps)
      else
        let r := popRec s ps
        (r.1, p :: r.2)

/-- Result of the inner `for gene in self.genes[1:]` loop of `concat_msa`
for one sample: the accumulated record, the `skip` flag, the later genes'
dicts after the `pop` calls, and the `(gene, sample)` pairs appended to
`missing_genes` by the `except KeyError` branches. -/
structure InnerRes where
  record : List Char
  skip : Bool
  rest : List Aln
  miss : List (String × String)
deriving Repr

/-- The inner loop of `concat_msa` (lines 196-201) for sample `s` starting
from partial record `record`: for each later gene, `record += sep` and then
`record += pop(s)`; a missing key leaves the separator appended, marks
`skip = True`, records the miss, and the loop continues with the next gene. -/
def procInner (sep : List Char) (s : String) :
    List Aln → List Char → InnerRes
  | [], record => ⟨record, false, [], []⟩
  | g :: gs, record =>
      match popRec s g.recs with
      | (some r, recs') =>
          let res := procInner sep s gs (record ++ sep ++ r)
          ⟨res.record, res.skip, ⟨g.gene, recs'⟩ :: res.rest, res.miss⟩
      | (none, recs') =>
          let res := procInner sep s gs (record ++ sep)
          ⟨res.record, true, ⟨g.gene, recs'⟩ :: res.rest,
            (g.gene, s) :: res.miss⟩

/-- Mutable state of the outer sample loop of `concat_msa`: the later genes'
dicts (entries consumed by `pop`), the log of `(gene, sample)` missing
entries in append order, the rows written to the output file, and the
`shared` counter. -/
structure CState where
  rest : List Aln
  missLog : List (String × String)
  rows : List (String × List Char)
  shared : Nat
deriving Repr

/-- The outer `for sample_id in set(all_records[self.genes[0]])` loop of
`concat_msa` (lines 190-206): each first-gene sample is joined across the
later genes; if no gene was missing it, the record is written and `shared`
is incremented. -/
def concatLoop (sep : List Char) :
    List (String × List Char) → CState → CState
  | [], st => st
  | (s, row0) :: more, st =>
      let res := procInner sep s st.rest row0
      concatLoop sep more
        { rest := res.rest
          missLog := st.missLog ++ res.miss
          rows := if res.skip then st.rows else st.rows ++ [(s, res.record)]
          shared := if res.skip then st.shared else st.shared + 1 }

/-- Everything `concat_msa` computes: the written rows, the `shared` count,
`msa_len`, whether the run is aborted (`exit(1)`), and the per-gene
missing-samples report in `self.genes` order.  On a fatal run the Python
code exits before writing the report; the model still records the values
the loop computed up to that point. -/
structure ConcatResult where
  rows : List (String × List Char)
  shared : Nat
  msaLen : Nat
  fatal : Bool
  report : List (String × List String)
deriving Repr

/-- `msa.py concat_msa` (lines 173-231) over the first gene `g0` and the
later genes `rest` (the code indexes `self.genes[0]` / `self.genes[1:]`,
so at least one gene is always present).  `msa_len` is summed before the
loop; the fatal test mirrors lines 207-216; line 221 then attributes every
sample left unconsumed in a later gene's dict to the first gene's report
entry, and the report lists later genes' misses in iteration order. -/
def concat_msa (sep : List Char) (g0 : Aln) (rest : List Aln) : ConcatResult :=
  let msaLen := ((g0 :: rest).map alnWidth).sum
  let st := concatLoop sep g0.recs ⟨rest, [], [], 0⟩
  let numGenes := 1 + rest.length
  let fatal := if 1 < numGenes then st.shared = 0 else msaLen = 0
  let firstMissing := (st.rest.map (fun g => keysOf g.recs)).flatten
  { rows := st.rows
    shared := st.shared
    msaLen := msaLen
    fatal := fatal
    report := (g0.gene, firstMissing) ::
      rest.map (fun g =>
        (g.gene, (st.missLog.filter (fun q => q.1 = g.gene)).map Prod.snd)) }

/-- Sample `s` is present in every one of the given genes' dicts (the
condition for surviving the join). -/
def presentAll (rest : List Aln) (s : String) : Bool :=
  rest.all (fun g => (keysOf g.recs).contains s)

/-!
## GUI trimming loop (`gtk_gbl.py do_gbl`, lines 233-319)

The Gblocks report file `<gene>_raw_msa.fasta.txt.txts` is scanned for the
line starting `Flank positions of the` and ending `selected block(s)`; the
*next* line (`fh.readline()`) carries the bracketed flank pairs and is cut
with `lane.strip()[9:-1]` and split on `']  ['`.  Python string primitives
are re-implemented structurally over `List Char` so that every concrete
parse is kernel-evaluable.  `int(b)` is modelled as a plain digit parse
(malformed input would raise `ValueError` in Python and never occurs in the
claims' inputs).
-/

/-- Python `str.strip()` whitespace test. -/
def isPySpace (c : Char) : Bool :=
  c = ' ' ∨ c = '\t' ∨ c = '\n' ∨ c = '\r' ∨ c = '\x0b' ∨ c = '\x0c'

/-- Python `str.strip()`. -/
def pyStrip (s : List Char) : List Char :=
  ((s.dropWhile isPySpace).reverse.dropWhile isPySpace).reverse

/-- Python `str.startswith(pat)`. -/
def startsWithL : List Char → List Char → Bool
  | [], _ => true
  | _ :: _, [] => false
  | p :: ps, c :: cs => p = c && startsWithL ps cs

/-- Python `str.endswith(pat)`. -/
def endsWithL (pat s : List Char) : Bool :=
  startsWithL pat.reverse s.reverse

/-- Fuel-driven core of Python `str.split(sep)` for a non-empty separator:
each step consumes at least one character, so `fuel = s.length` suffices. -/
def pySplitF (sep : List Char) : Nat → List Char → List Char → List (List Char)
  | _, [], acc => [acc]
  | 0, s, acc => [acc ++ s]
  | fuel + 1, c :: cs, acc =>
      if startsWithL sep (c :: cs) then
        acc :: pySplitF sep fuel ((c :: cs).drop sep.length) []
      else
        pySplitF sep fuel cs (acc ++ [c])

/-- Python `str.split(sep)` (non-empty separator, keeps empty pieces). -/
def pySplit (sep s : List Char) : List (List Char) :=
  pySplitF sep s.length s []

/-- Decimal digit accumulation for `pyInt`. -/
def digitsToNat : List Char → Nat → Nat
  | [], acc => acc
  | c :: cs, acc => digitsToNat cs (acc * 10 + (c.toNat - 48))

/-- Python `int(s)` for the digit strings Gblocks reports (optionally
negative; malformed input never occurs in the claims' inputs). -/
def pyInt (s : List Char) : Int :=
  match s with
  | '-' :: cs => -(digitsToNat cs 0 : Int)
  | cs => (digitsToNat cs 0 : Int)

/-- The header prefix `line.startswith('Flank positions of the')`. -/
def flankHeader : List Char := "Flank positions of the".data

/-- The header suffix `line.strip().endswith('selected block(s)')`. -/
def flankTail : List Char := "selected block(s)".data

/-- The scan over the report file (do_gbl lines 302-308): find the header
line, then `fh.readline()` the following line (an exhausted file reads as
the empty string). -/
def findFlankLane : List (List Char) → Option (List Char)
  | [] => none
  | l :: ls =>
      if startsWithL flankHeader l ∧ endsWithL flankTail (pyStrip l) then
        some (ls.headD [])
      else findFlankLane ls

/-- `line_blocks = lane.strip()[9:-1].split(']  [')` (do_gbl line 307). -/
def parseLane (lane : List Char) : List (List Char) :=
  pySplit "]  [".data (((pyStrip lane).drop 9).dropLast)

/-- The `line_blocks` list a report file yields (empty-string list when no
blocks were selected). -/
def parsedBlocks (lines : List (List Char)) : List (List Char) :=
  parseLane ((findFlankLane lines).getD [])

/-- One reported block turned into a slice (do_gbl lines 316-318):
`r = [int(b) + shift for b in block.split('  ')]` then `range(r[0]-1, r[1])`,
modelled as the half-open pair `(r[0]-1, r[1])`. -/
def blockToSlice (shift : Int) (block : List Char) : Int × Int :=
  let r := (pySplit "  ".data block).map (fun b => pyInt b + shift)
  (r.headD 0 - 1, r.getD 1 0)

/-- Shifting a slice by an offset (for the offset-additivity property). -/
def shiftSlice (o : Int) (r : Int × Int) : Int × Int :=
  (r.1 + o, r.2 + o)

/-- What the external Gblocks invocation for one gene produces: a raised
`OSError`/`CalledProcessError` (with `str(e)`), or the report file's lines. -/
inductive GblocksOutcome where
  | fail (msg : String)
  | report (lines : List (List Char))
deriving DecidableEq, Repr

/-- Per-gene input to the `do_gbl` loop: the gene name, the *sorted* key
list of the raw MSA's records (`sorted(records.keys())`), the raw
(pre-trim) alignment width (`ar.shape[1]`, measured on
`<gene>_raw_msa.fasta`), and the external trimmer's outcome. -/
structure GeneData where
  gene : String
  ids : List String
  width : Nat
  outcome : GblocksOutcome
deriving DecidableEq, Repr

/-- State threaded through the `for gene in data.genes` loop of `do_gbl`:
the error list, `msa_lens` (raw widths of the genes read so far), the
accumulated `slices`, and whether the run was aborted by the early
`return` of the mismatch branch. -/
structure DoGblState where
  errors : List String
  msa_lens : List Nat
  slices : List (Int × Int)
  aborted : Bool
deriving DecidableEq, Repr

/-- The per-gene loop of `do_gbl` (lines 266-319).  Per gene: if the raw
MSA's sorted ids differ from `shared_ids`, append the mismatch error and
return immediately (whole run aborted, remaining genes unprocessed, the
trimmer never invoked for this gene); otherwise append the raw width to
`msa_lens`; with the `skip` preset just copy the file and continue; else a
trimmer failure or an empty block list appends an error and continues,
and a parsed report adds its blocks shifted by `sum(msa_lens[:-1])`. -/
def doGblLoop (preset : GblMode) (shared_ids : List String) :
    List GeneData → DoGblState → DoGblState
  | [], st => st
  | g :: gs, st =>
      if g.ids ≠ shared_ids then
        { st with
          errors := st.errors ++
            ["MSA for " ++ g.gene ++ " does not match the dataset, please re-build."]
          aborted := true }
      else
        let st := { st with msa_lens := st.msa_lens ++ [g.width] }
        if preset = GblMode.skip then
          doGblLoop preset shared_ids gs st
        else
          match g.outcome with
          | GblocksOutcome.fail msg =>
              doGblLoop preset shared_ids gs
                { st with errors := st.errors ++ [msg] }
          | GblocksOutcome.report lines =>
              let line_blocks := parsedBlocks lines
              if line_blocks = [[]] then
                doGblLoop preset shared_ids gs
                  { st with errors := st.errors ++ [g.gene ++ ": no good blocks"] }
              else
                let shift : Int := (st.msa_lens.dropLast.sum : Nat)
                doGblLoop preset shared_ids gs
                  { st with slices := st.slices ++ line_blocks.map (blockToSlice shift) }

/-- The trimming loop of `do_gbl` started from the initial empty state
(errors, `msa_lens` and `slices` all start empty at lines 238-263). -/
def do_gbl (preset : GblMode) (shared_ids : List String)
    (genes : List GeneData) : DoGblState :=
  doGblLoop preset shared_ids genes ⟨[], [], [], false⟩

/-!
## Claims C3, C4, C10: preset parameters
-/

/-- C3 (counterexample): the claim says the good-block-minimum passed to the
trimmer is 10 for the strict preset, but `msa.py trim_msa` leaves `b4` at
its initial value 5 in the strict branch (only the `default` branch raises
it to 10): at `n = 10` the strict invocation uses `-b4=5`. -/
theorem C3_counterexample :
    goodBlockOf (trim_msa GblMode.strict 10) ≠ some 10 := by
  decide

/-- C3 (amended): for every non-skip preset and every sample count,
`gtk_gbl.py re_preset` computes exactly the spec's preset table, and
`msa.py trim_msa` passes exactly the table's conserved-minimum,
flank-minimum and gap policy to the trimmer, but its good-block-minimum is
the table's value only for relaxed, balanced and default; for strict it
stays 5 instead of the table's 10. -/
theorem C3_params_match_table_except_strict_b4 (mode : GblMode) (n : Nat)
    (h : mode ≠ GblMode.skip) :
    re_preset mode n = specPresetTable mode n ∧
    ∃ p, specPresetTable mode n = some p ∧
      trim_msa mode n = TrimAction.runGblocks
        ⟨p.conserved, p.flank, gapsAbbrev p.gaps,
          if mode = GblMode.strict then 5 else p.good_block⟩ := by
  cases mode with
  | skip => exact absurd rfl h
  | relaxed => exact ⟨rfl, _, rfl, rfl⟩
  | balanced => exact ⟨rfl, _, rfl, rfl⟩
  | default => exact ⟨rfl, _, rfl, rfl⟩
  | strict => exact ⟨rfl, _, rfl, rfl⟩

/-- C3 witness: the amended statement at the strict preset with 12 samples. -/
theorem C3_params_witness :
    re_preset GblMode.strict 12 = specPresetTable GblMode.strict 12 ∧
    ∃ p, specPresetTable GblMode.strict 12 = some p ∧
      trim_msa GblMode.strict 12 = TrimAction.runGblocks
        ⟨p.conserved, p.flank, gapsAbbrev p.gaps,
          if GblMode.strict = GblMode.strict then 5 else p.good_block⟩ :=
  C3_params_match_table_except_strict_b4 GblMode.strict 12 (by decide)

/-- C4 (counterexample): at sample count `n = 2` the balanced preset
computes conserved-minimum `2 // 2 + 1 = 2` but flank-minimum
`min(2 // 4 * 3 + 1, 2) = 1`, so `conserved ≤ flank` fails (both in
`re_preset` and in `trim_msa`). -/
theorem C4_counterexample :
    re_preset GblMode.balanced 2 = some ⟨2, 1, "half", 5, 8⟩ ∧
    trim_msa GblMode.balanced 2 = TrimAction.runGblocks ⟨2, 1, 'h', 5⟩ ∧
    ¬ (2 ≤ 1) := by
  decide

/-- C4 (amended): for every sample count `n ≥ 1`, the relaxed, default and
strict presets satisfy `conserved ≤ flank ≤ n`, but the balanced preset
satisfies it exactly when `n = 1` or `n ≥ 4` (it fails for `n = 2, 3`);
this holds identically for `re_preset` and for `trim_msa`. -/
theorem C4_conserved_le_flank_le_n (n : Nat) (h : 1 ≤ n) :
    presetOrdered GblMode.relaxed n ∧ presetOrdered GblMode.default n ∧
    presetOrdered GblMode.strict n ∧
    (presetOrdered GblMode.balanced n ↔ n = 1 ∨ 4 ≤ n) ∧
    trimOrdered GblMode.relaxed n ∧ trimOrdered GblMode.default n ∧
    trimOrdered GblMode.strict n ∧
    (trimOrdered GblMode.balanced n ↔ n = 1 ∨ 4 ≤ n) := by
  unfold presetOrdered trimOrdered re_preset trim_msa
  refine ⟨?_, ?_, ?_, ⟨?_, ?_⟩, ?_, ?_, ?_, ⟨?_, ?_⟩⟩
  · intro p hp; rw [Option.mem_def, Option.some_inj] at hp; subst hp
    constructor <;> simp <;> omega
  · intro p hp; rw [Option.mem_def, Option.some_inj] at hp; subst hp
    constructor <;> simp <;> omega
  · intro p hp; rw [Option.mem_def, Option.some_inj] at hp; subst hp
    constructor <;> simp <;> omega
  · intro hall
    have := hall ⟨n / 2 + 1, min (n / 4 * 3 + 1) n, "half", 5, 8⟩ rfl
    simp only [min_le_iff, le_min_iff] at this
    omega
  · intro hn p hp; rw [Option.mem_def, Option.some_inj] at hp; subst hp
    constructor <;> simp <;> omega
  · intro p hp; cases hp; constructor <;> simp <;> omega
  · intro p hp; cases hp; constructor <;> simp <;> omega
  · intro p hp; cases hp; constructor <;> simp <;> omega
  · intro hall
    have := hall ⟨n / 2 + 1, min (n / 4 * 3 + 1) n, 'h', 5⟩ rfl
    simp only [min_le_iff, le_min_iff] at this
    omega
  · intro hn p hp; cases hp
    constructor <;> simp <;> omega

/-- C4 witness: the amended statement at `n = 5`. -/
theorem C4_conserved_le_flank_le_n_witness :
    presetOrdered GblMode.relaxed 5 ∧ presetOrdered GblMode.default 5 ∧
    presetOrdered GblMode.strict 5 ∧
    (presetOrdered GblMode.balanced 5 ↔ 5 = 1 ∨ 4 ≤ 5) ∧
    trimOrdered GblMode.relaxed 5 ∧ trimOrdered GblMode.default 5 ∧
    trimOrdered GblMode.strict 5 ∧
    (trimOrdered GblMode.balanced 5 ↔ 5 = 1 ∨ 4 ≤ 5) :=
  C4_conserved_le_flank_le_n 5 (by decide)

/-- C10: every Gblocks command the GUI builds satisfies
`flank (-b2) ≥ conserved (-b1)`: `start_gbl` clamps a too-small flank up to
the conserved value before storing the parameters, and the `edit` handler
raises the flank adjustment's value to at least the conserved value
whenever conserved changes. -/
theorem C10_gui_flank_ge_conserved (cons flank good bad : Nat) (gaps : Char)
    (c f : Adj) :
    (start_gbl cons flank good bad gaps).b1 = cons ∧
    cons ≤ (start_gbl cons flank good bad gaps).b2 ∧
    c.value ≤ (edit c f).value ∧ (edit c f).lower = c.value := by
  refine ⟨rfl, ?_, le_max_left _ _, rfl⟩
  unfold start_gbl
  dsimp only
  split <;> omega

/-!
## Claims C6, C7, C8, C9: the GUI trimming loop
-/

/-- A two-element list decomposes into its elements. -/
theorem list_len_two {α : Type} (l : List α) (h : l.length = 2) :
    ∃ u v, l = [u, v] := by
  match l, h with
  | [u, v], _ => exact ⟨u, v, rfl⟩

/-- C6: in the `do_gbl` per-gene loop, a sample-id mismatch between the raw
alignment and the shared-sample set aborts the whole run at once — the
result ignores the remaining genes and does not depend on the mismatching
gene's trimmer outcome (the trimmer is never consulted) — whereas a trimmer
failure or an empty block list merely appends to the error list and
continues with the next gene. -/
theorem C6_mismatch_aborts_failures_continue (preset : GblMode)
    (shared : List String) (hp : preset ≠ GblMode.skip) (st : DoGblState)
    (g : GeneData) (gs : List GeneData) :
    (g.ids ≠ shared →
      doGblLoop preset shared (g :: gs) st =
        { st with
          errors := st.errors ++
            ["MSA for " ++ g.gene ++ " does not match the dataset, please re-build."]
          aborted := true } ∧
      ∀ o, doGblLoop preset shared ({ g with outcome := o } :: gs) st =
        doGblLoop preset shared (g :: gs) st) ∧
    (g.ids = shared → ∀ m, g.outcome = GblocksOutcome.fail m →
      doGblLoop preset shared (g :: gs) st =
        doGblLoop preset shared gs
          { st with
            errors := st.errors ++ [m]
            msa_lens := st.msa_lens ++ [g.width] }) ∧
    (g.ids = shared → ∀ lines, g.outcome = GblocksOutcome.report lines →
      parsedBlocks lines = [[]] →
      doGblLoop preset shared (g :: gs) st =
        doGblLoop preset shared gs
          { st with
            errors := st.errors ++ [g.gene ++ ": no good blocks"]
            msa_lens := st.msa_lens ++ [g.width] }) := by
  obtain ⟨gn, gi, gw, go⟩ := g
  refine ⟨fun hne => ⟨?_, fun o => ?_⟩, fun heq m hm => ?_, fun heq lines hl hb => ?_⟩
  · simp only [doGblLoop, if_pos hne]
  · simp only [doGblLoop]
    rw [if_pos hne, if_pos hne]
  · subst heq; subst hm
    simp [doGblLoop, hp]
  · subst heq; subst hl
    simp [doGblLoop, hp, hb]

/-- C6 witness: a concrete mismatching gene aborts the run with the
mismatch message, leaving a later gene unprocessed. -/
theorem C6_mismatch_aborts_witness :
    doGblLoop GblMode.balanced ["a"]
        [⟨"g1", ["b"], 5, GblocksOutcome.fail "boom"⟩,
         ⟨"g2", ["a"], 3, GblocksOutcome.fail "x"⟩] ⟨[], [], [], false⟩ =
      ⟨["MSA for g1 does not match the dataset, please re-build."], [], [], true⟩ :=
  (((C6_mismatch_aborts_failures_continue GblMode.balanced ["a"] (by decide)
      ⟨[], [], [], false⟩ ⟨"g1", ["b"], 5, GblocksOutcome.fail "boom"⟩
      [⟨"g2", ["a"], 3, GblocksOutcome.fail "x"⟩]).1 (by decide)).1).trans
    (by decide)

/-- C7: over two genes that both pass the id check and whose reports parse
successfully, the loop records the first gene's ranges unshifted and the
second gene's ranges shifted by the first gene's raw (pre-trim) width
(`shift = sum(msa_lens[:-1])`, where `msa_lens` collects `ar.shape[1]` of
each `<gene>_raw_msa.fasta`); moreover the translation is offset-additive:
those shifted ranges equal the locally computed ranges shifted afterwards. -/
theorem C7_offsets_are_prior_raw_widths (preset : GblMode)
    (shared : List String) (A B : GeneData) (lA lB : List (List Char))
    (hp : preset ≠ GblMode.skip) (hA : A.ids = shared) (hB : B.ids = shared)
    (hoA : A.outcome = GblocksOutcome.report lA)
    (hoB : B.outcome = GblocksOutcome.report lB)
    (hbA : parsedBlocks lA ≠ [[]]) (hbB : parsedBlocks lB ≠ [[]])
    (hwf : ∀ blk ∈ parsedBlocks lB, (pySplit "  ".data blk).length = 2) :
    (do_gbl preset shared [A, B]).slices =
      (parsedBlocks lA).map (blockToSlice 0) ++
        (parsedBlocks lB).map (blockToSlice (A.width : Int)) ∧
    (parsedBlocks lB).map (blockToSlice (A.width : Int)) =
      ((parsedBlocks lB).map (blockToSlice 0)).map (shiftSlice (A.width : Int)) := by
  constructor
  · subst hA
    obtain ⟨an, ai, aw, ao⟩ := A
    obtain ⟨bn, bi, bw, bo⟩ := B
    dsimp only at hB hoA hoB ⊢
    subst hB
    subst hoA
    subst hoB
    simp [do_gbl, doGblLoop, hp, hbA, hbB]
  · rw [List.map_map]
    refine List.map_congr_left (fun blk hblk => ?_)
    obtain ⟨u, v, huv⟩ := list_len_two _ (hwf blk hblk)
    simp [Function.comp_apply, blockToSlice, shiftSlice, huv]
    omega

/-- C7 witness: two concrete genes of raw widths 40 and 70; the second
gene's block `[5 30]` lands at `[44, 70)` = `[4, 30)` shifted by 40. -/
theorem C7_offsets_witness :
    (do_gbl GblMode.balanced ["s1"]
        [⟨"g1", ["s1"], 40, GblocksOutcome.report
            ["Flank positions of the 2 selected block(s)\n".data,
             "Flanks: [1  50]  [80  120]\n".data]⟩,
         ⟨"g2", ["s1"], 70, GblocksOutcome.report
            ["Flank positions of the 1 selected block(s)\n".data,
             "Flanks: [5  30]\n".data]⟩]).slices =
      (parsedBlocks ["Flank positions of the 2 selected block(s)\n".data,
          "Flanks: [1  50]  [80  120]\n".data]).map (blockToSlice 0) ++
        (parsedBlocks ["Flank positions of the 1 selected block(s)\n".data,
          "Flanks: [5  30]\n".data]).map (blockToSlice ((40 : Nat) : Int)) ∧
    (parsedBlocks ["Flank positions of the 1 selected block(s)\n".data,
        "Flanks: [5  30]\n".data]).map (blockToSlice ((40 : Nat) : Int)) =
      ((parsedBlocks ["Flank positions of the 1 selected block(s)\n".data,
          "Flanks: [5  30]\n".data]).map (blockToSlice 0)).map
        (shiftSlice ((40 : Nat) : Int)) :=
  C7_offsets_are_prior_raw_widths GblMode.balanced ["s1"] _ _ _ _
    (by decide) rfl rfl rfl rfl (by decide) (by decide) (by decide)

/-- C8: a report whose flank line carries the one-indexed inclusive pairs
`[1  50]` and `[80  120]` parses to exactly the zero-indexed half-open
ranges `[0, 50)` and `[79, 120)`; in general a reported pair `[s  e]`
(split on two spaces) becomes the range `[s - 1 + shift, e + shift)`. -/
theorem C8_pairs_become_half_open_ranges (shift : Int) (block u v : List Char)
    (hsplit : pySplit "  ".data block = [u, v]) :
    blockToSlice shift block = (pyInt u + shift - 1, pyInt v + shift) ∧
    (parsedBlocks ["Flank positions of the 2 selected block(s)\n".data,
        "Flanks: [1  50]  [80  120]\n".data]).map (blockToSlice 0) =
      [(0, 50), (79, 120)] := by
  constructor
  · simp [blockToSlice, hsplit, List.getD]
  · decide

/-- C8 witness: the general pair rule applied to the concrete pair
`"1  50"` at shift 0. -/
theorem C8_pairs_witness :
    blockToSlice 0 "1  50".data = (pyInt "1".data + 0 - 1, pyInt "50".data + 0) ∧
    (parsedBlocks ["Flank positions of the 2 selected block(s)\n".data,
        "Flanks: [1  50]  [80  120]\n".data]).map (blockToSlice 0) =
      [(0, 50), (79, 120)] :=
  C8_pairs_become_half_open_ranges 0 "1  50".data "1".data "50".data (by decide)

/-- C9 (counterexample): with the `skip` preset the GUI loop records no
retained ranges at all — after a one-gene run of raw width 7 the slice set
is empty, not the claimed single full-width range `[0, 7)`. -/
theorem C9_counterexample :
    (do_gbl GblMode.skip ["s1"]
        [⟨"g", ["s1"], 7, GblocksOutcome.fail ""⟩]).slices = [] ∧
    ([] : List (Int × Int)) ≠ [((0 : Int), (7 : Int))] := by
  decide

/-- C9 (amended): the `skip` preset never invokes the external trimmer —
`trim_msa` only copies, so the trimmed alignment file is byte-identical to
the raw alignment — but no retained range is recorded for any gene: the
GUI loop leaves the slice set unchanged (hence empty over a whole skip
run), rather than producing a full-width range. -/
theorem C9_skip_copies_and_records_no_ranges (n : Nat) (raw gblocksOut : List Char)
    (shared : List String) (genes : List GeneData) (st : DoGblState) :
    trim_msa GblMode.skip n = TrimAction.copyRaw ∧
    trim_msa_file GblMode.skip n raw gblocksOut = raw ∧
    (doGblLoop GblMode.skip shared genes st).slices = st.slices := by
  refine ⟨rfl, rfl, ?_⟩
  induction genes generalizing st with
  | nil => rfl
  | cons g gs ih =>
      simp only [doGblLoop]
      split
      · rfl
      · simpa using ih _

/-!
## Supporting lemmas for `concat_msa`
-/

/-- Rectangularity of one gene's alignment against a fixed width. -/
def rectW (g : Aln) (w : Nat) : Prop :=
  ∀ p ∈ g.recs, p.2.length = w

/-- An entry surviving a `pop` was in the dict before. -/
theorem popRec_snd_mem {s : String} {recs : List (String × List Char)}
    {p : String × List Char} (hp : p ∈ (popRec s recs).2) : p ∈ recs := by
  induction recs with
  | nil => simp [popRec] at hp
  | cons q qs ih =>
      by_cases h : q.1 = s
      · simp only [popRec, if_pos h] at hp
        exact List.mem_cons_of_mem _ hp
      · simp only [popRec, if_neg h] at hp
        rcases List.mem_cons.mp hp with rfl | hp
        · exact List.mem_cons_self _ _
        · exact List.mem_cons_of_mem _ (ih hp)

/-- Popping key `s` does not change membership of any other key `t`. -/
theorem popRec_other_key {s t : String} (hts : t ≠ s)
    (recs : List (String × List Char)) :
    t ∈ keysOf (popRec s recs).2 ↔ t ∈ keysOf recs := by
  induction recs with
  | nil => simp [popRec]
  | cons q qs ih =>
      by_cases h : q.1 = s
      · simp only [popRec, if_pos h, keysOf, List.map_cons, List.mem_cons]
        constructor
        · exact Or.inr
        · rintro (rfl | hm)
          · exact absurd h hts
          · exact hm
      · simpa only [popRec, if_neg h, keysOf, List.map_cons, List.mem_cons]
          using or_congr_right ih

/-- A failed `pop` means the key is absent. -/
theorem popRec_fst_none {s : String} (recs : List (String × List Char)) :
    (popRec s recs).1 = none ↔ s ∉ keysOf recs := by
  induction recs with
  | nil => simp [popRec, keysOf]
  | cons q qs ih =>
      by_cases h : q.1 = s
      · simp [popRec, h, keysOf]
      · simp only [popRec, if_neg h, keysOf, List.map_cons, List.mem_cons]
        rw [ih]
        constructor
        · intro hs
          rintro (rfl | hm)
          · exact h rfl
          · exact hs hm
        · intro hs hm
          exact hs (Or.inr hm)

/-- A successful `pop` returns an entry of the dict keyed by `s`. -/
theorem popRec_fst_some {s : String} {r : List Char}
    (recs : List (String × List Char)) (h : (popRec s recs).1 = some r) :
    (s, r) ∈ recs := by
  induction recs with
  | nil => simp [popRec] at h
  | cons q qs ih =>
      by_cases hq : q.1 = s
      · simp only [popRec, if_pos hq, Option.some_inj] at h
        subst h
        rw [← hq]
        exact List.mem_cons_self _ _
      · simp only [popRec, if_neg hq] at h
        exact List.mem_cons_of_mem _ (ih h)

/-- The inner loop's `skip` flag is set exactly when the sample is missing
from at least one later gene. -/
theorem procInner_skip_eq (sep : List Char) (s : String) (rest : List Aln)
    (row0 : List Char) :
    (procInner sep s rest row0).skip = !presentAll rest s := by
  induction rest generalizing row0 with
  | nil => simp [procInner, presentAll]
  | cons g gs ih =>
      rcases hpop : popRec s g.recs with ⟨o, recs'⟩
      cases o with
      | some r =>
          have hs : s ∈ keysOf g.recs := by
            by_contra hns
            rw [← popRec_fst_none (s := s) g.recs, hpop] at hns
            exact (Option.some_ne_none r) hns
          have hc : (keysOf g.recs).contains s = true := List.elem_iff.mpr hs
          simp only [procInner, hpop]
          rw [ih]
          simp [presentAll, List.all_cons, hc]
          exact fun hn => absurd hs hn
      | none =>
          have hs : s ∉ keysOf g.recs := by
            rw [← popRec_fst_none (s := s) g.recs, hpop]
          have hc : (keysOf g.recs).contains s = false := by
            rw [Bool.eq_false_iff]
            intro hcc
            exact hs (List.elem_iff.mp hcc)
          simp only [procInner, hpop]
          simp [presentAll, List.all_cons, hc]
          exact Or.inl hs

/-- The inner loop only pops the sample being processed: presence of any
other sample in the later genes is unchanged. -/
theorem procInner_presentAll (sep : List Char) (s t : String) (hts : t ≠ s)
    (rest : List Aln) (row0 : List Char) :
    presentAll (procInner sep s rest row0).rest t = presentAll rest t := by
  induction rest generalizing row0 with
  | nil => simp [procInner]
  | cons g gs ih =>
      have hkey : ((keysOf (popRec s g.recs).2).contains t)
          = ((keysOf g.recs).contains t) := by
        rw [Bool.eq_iff_iff]
        constructor
        · intro hc
          exact List.elem_iff.mpr
            ((popRec_other_key hts g.recs).mp (List.elem_iff.mp hc))
        · intro hc
          exact List.elem_iff.mpr
            ((popRec_other_key hts g.recs).mpr (List.elem_iff.mp hc))
      rcases hpop : popRec s g.recs with ⟨o, recs'⟩
      rw [hpop] at hkey
      cases o with
      | some r =>
          simp only [procInner, hpop, presentAll, List.all_cons]
          rw [← presentAll, ← presentAll, ih, hkey]
      | none =>
          simp only [procInner, hpop, presentAll, List.all_cons]
          rw [← presentAll, ← presentAll, ih, hkey]

/-- Length and rectangularity bookkeeping of the inner loop: if the sample
survives, its record length is the start length plus, per later gene, the
separator length plus that gene's width; and the popped dicts stay
rectangular at the same widths. -/
theorem procInner_spec (sep : List Char) (s : String) (rest : List Aln)
    (ws : List Nat) (row0 : List Char) (hws : List.Forall₂ rectW rest ws) :
    ((procInner sep s rest row0).skip = false →
      (procInner sep s rest row0).record.length
        = row0.length + (ws.map (fun w => sep.length + w)).sum) ∧
    List.Forall₂ rectW (procInner sep s rest row0).rest ws := by
  induction hws generalizing row0 with
  | nil => simp [procInner]
  | @cons g w gs ws' hgw htl ih =>
      rcases hpop : popRec s g.recs with ⟨o, recs'⟩
      have hrect' : rectW ⟨g.gene, recs'⟩ w := by
        intro p hp
        refine hgw p (popRec_snd_mem (s := s) ?_)
        rw [hpop]
        exact hp
      cases o with
      | some r =>
          have hr : r.length = w :=
            hgw (s, r) (popRec_fst_some g.recs (by rw [hpop]))
          obtain ⟨ihlen, ihrest⟩ := ih (row0 ++ sep ++ r)
          constructor
          · intro hsk
            simp only [procInner, hpop] at hsk ⊢
            rw [ihlen hsk]
            simp [hr]
            omega
          · simp only [procInner, hpop]
            exact List.forall₂_cons.mpr ⟨hrect', ihrest⟩
      | none =>
          obtain ⟨-, ihrest⟩ := ih (row0 ++ sep)
          constructor
          · intro hsk
            simp only [procInner, hpop] at hsk
            exact Bool.noConfusion hsk
          · simp only [procInner, hpop]
            exact List.forall₂_cons.mpr ⟨hrect', ihrest⟩

/-- The `shared` counter counts exactly the first-gene samples present in
every later gene (distinct first-gene keys, as in a Python dict). -/
theorem concatLoop_shared (sep : List Char)
    (samples : List (String × List Char)) (st : CState)
    (hnd : (samples.map Prod.fst).Nodup) :
    (concatLoop sep samples st).shared
      = st.shared + (samples.filter (fun p => presentAll st.rest p.1)).length := by
  induction samples generalizing st with
  | nil => simp [concatLoop]
  | cons q more ih =>
      obtain ⟨s, row0⟩ := q
      rw [List.map_cons, List.nodup_cons] at hnd
      obtain ⟨hs, hnd'⟩ := hnd
      have hne : ∀ p ∈ more, p.1 ≠ s := by
        intro p hp hps
        exact hs (List.mem_map.mpr ⟨p, hp, hps⟩)
      have hskip := procInner_skip_eq sep s st.rest row0
      have hpres : ∀ p ∈ more,
          presentAll (procInner sep s st.rest row0).rest p.1
            = presentAll st.rest p.1 :=
        fun p hp => procInner_presentAll sep s p.1 (hne p hp) st.rest row0
      simp only [concatLoop]
      rw [ih _ hnd']
      cases hps : presentAll st.rest s with
      | true =>
          rw [hps] at hskip
          simp only [hskip, Bool.not_true, Bool.false_eq_true, if_false]
          rw [List.filter_congr hpres, List.filter_cons_of_pos (by simp [hps])]
          simp only [List.length_cons]
          omega
      | false =>
          rw [hps] at hskip
          simp only [hskip, Bool.not_false, if_true]
          rw [List.filter_congr hpres, List.filter_cons_of_neg (by simp [hps])]

/-- Every row the loop writes has the full concatenated length:
first-gene width plus, per later gene, separator plus gene width. -/
theorem concatLoop_rows (sep : List Char)
    (samples : List (String × List Char)) (st : CState) (ws : List Nat)
    (w0 : Nat) (hws : List.Forall₂ rectW st.rest ws)
    (hrows : ∀ p ∈ samples, p.2.length = w0) :
    ∀ q ∈ (concatLoop sep samples st).rows,
      q ∈ st.rows ∨
        q.2.length = w0 + (ws.map (fun w => sep.length + w)).sum := by
  induction samples generalizing st with
  | nil =>
      intro q hq
      exact Or.inl hq
  | cons qq more ih =>
      obtain ⟨s, row0⟩ := qq
      have h0 : row0.length = w0 := hrows (s, row0) (List.mem_cons_self _ _)
      obtain ⟨hlen, hrest⟩ := procInner_spec sep s st.rest ws row0 hws
      intro q hq
      simp only [concatLoop] at hq
      rcases ih _ hrest (fun p hp => hrows p (List.mem_cons_of_mem _ hp)) q hq
        with hmem | hlen'
      · cases hsk : (procInner sep s st.rest row0).skip with
        | true =>
            rw [hsk] at hmem
            exact Or.inl (by simpa using hmem)
        | false =>
            rw [hsk] at hmem
            simp only [if_false, Bool.false_eq_true] at hmem
            rcases List.mem_append.mp hmem with hmem' | hmem'
            · exact Or.inl hmem'
            · right
              have hq' : q = (s, (procInner sep s st.rest row0).record) := by
                simpa using hmem'
              rw [hq']
              rw [hlen hsk, h0]
      · exact Or.inr hlen'

/-- Summing `sep.length + w` over a width list. -/
theorem sum_map_const_add (c : Nat) (l : List Nat) :
    (l.map (fun w => c + w)).sum = l.length * c + l.sum := by
  induction l with
  | nil => simp
  | cons a t ih =>
      simp only [List.map_cons, List.sum_cons, List.length_cons, ih]
      ring

/-- Pointwise relation against the mapped list. -/
theorem forall₂_map_self {α β : Type} (R : α → β → Prop) (f : α → β)
    (l : List α) (h : ∀ x ∈ l, R x (f x)) : List.Forall₂ R l (l.map f) := by
  induction l with
  | nil => simp
  | cons a t ih =>
      exact List.forall₂_cons.mpr
        ⟨h a (List.mem_cons_self _ _),
         ih (fun p hp => h p (List.mem_cons_of_mem _ hp))⟩

/-!
## Claims C1, C2, C5: concatenation
-/

/-- C2: assuming each gene's trimmed alignment is rectangular, every row
`concat_msa` writes has length equal to the sum of the per-gene trimmed
widths plus (number of genes - 1) times the separator length. -/
theorem C2_output_row_lengths (sep : List Char) (g0 : Aln) (rest : List Aln)
    (hrect : ∀ g ∈ g0 :: rest, ∀ p ∈ g.recs, p.2.length = alnWidth g) :
    ∀ q ∈ (concat_msa sep g0 rest).rows,
      q.2.length = ((g0 :: rest).map alnWidth).sum + rest.length * sep.length := by
  intro q hq
  have hws : List.Forall₂ rectW rest (rest.map alnWidth) :=
    forall₂_map_self _ _ _ (fun g hg => hrect g (List.mem_cons_of_mem _ hg))
  have hq' : q ∈ (concatLoop sep g0.recs ⟨rest, [], [], 0⟩).rows := hq
  rcases concatLoop_rows sep g0.recs ⟨rest, [], [], 0⟩ (rest.map alnWidth)
      (alnWidth g0) hws (hrect g0 (List.mem_cons_self _ _)) q hq'
    with hmem | hlen
  · simp at hmem
  · rw [hlen, sum_map_const_add]
    simp only [List.length_map, List.map_cons, List.sum_cons]
    omega

/-- C2 witness: one shared sample over genes of widths 2 and 1 with a
one-character separator gives the written row length 2 + 1 + 1. -/
theorem C2_output_row_lengths_witness :
    (("x", ['a', 'a', '-', 'b']) : String × List Char).2.length
      = (((⟨"A", [("x", ['a', 'a'])]⟩ : Aln) ::
          [(⟨"B", [("x", ['b'])]⟩ : Aln)]).map alnWidth).sum +
        [(⟨"B", [("x", ['b'])]⟩ : Aln)].length * ['-'].length :=
  C2_output_row_lengths ['-'] ⟨"A", [("x", ['a', 'a'])]⟩ [⟨"B", [("x", ['b'])]⟩]
    (by decide) ("x", ['a', 'a', '-', 'b']) (by decide)

/-- C5: the run is aborted (`exit(1)`) exactly when more than one gene is
in play and no first-gene sample is present in every other gene (zero
samples survive the join), or exactly one gene is in play and its width is
zero; mere per-sample drops never abort. -/
theorem C5_fatal_exactly_when (sep : List Char) (g0 : Aln) (rest : List Aln)
    (hnd : (keysOf g0.recs).Nodup) :
    (concat_msa sep g0 rest).fatal = true ↔
      (rest ≠ [] ∧ ∀ p ∈ g0.recs, presentAll rest p.1 = false) ∨
      (rest = [] ∧ alnWidth g0 = 0) := by
  have hsh : (concat_msa sep g0 rest).shared
      = (g0.recs.filter (fun p => presentAll rest p.1)).length := by
    have h := concatLoop_shared sep g0.recs ⟨rest, [], [], 0⟩ hnd
    simpa using h
  cases rest with
  | nil =>
      simp [concat_msa]
  | cons r rs =>
      have hfatal : (concat_msa sep g0 (r :: rs)).fatal
          = decide ((concat_msa sep g0 (r :: rs)).shared = 0) := by
        simp [concat_msa]
      rw [hfatal, decide_eq_true_iff, hsh, List.length_eq_zero,
        List.filter_eq_nil_iff]
      simp

/-- C5 witness: two genes with no shared sample abort the run. -/
theorem C5_fatal_witness :
    (concat_msa [] ⟨"A", [("s", ['a'])]⟩
        [⟨"B", ([] : List (String × List Char))⟩]).fatal = true :=
  (C5_fatal_exactly_when [] ⟨"A", [("s", ['a'])]⟩
      [⟨"B", ([] : List (String × List Char))⟩] (by decide)).mpr
    (Or.inl ⟨by decide, by decide⟩)

/-- C1: over genes `[A, B]` with `A` holding samples `{x, y, z}` and `B`
holding `{y, z, w}` (all distinct), `concat_msa` writes rows exactly for
the shared samples `{y, z}`; the report maps gene `B` to `{x}` (first-gene
samples absent from `B`) and gene `A` to `{w}` (samples left unconsumed in
`B` after iterating the first gene's key set). -/
theorem C1_shared_rows_and_missing_report
    (sep a1 a2 a3 b1 b2 b3 : List Char) (gA gB x y z w : String)
    (hxy : x ≠ y) (hxz : x ≠ z) (hxw : x ≠ w)
    (hyz : y ≠ z) (hyw : y ≠ w) (hzw : z ≠ w) :
    (concat_msa sep ⟨gA, [(x, a1), (y, a2), (z, a3)]⟩
        [⟨gB, [(y, b1), (z, b2), (w, b3)]⟩]).rows.map Prod.fst = [y, z] ∧
    (concat_msa sep ⟨gA, [(x, a1), (y, a2), (z, a3)]⟩
        [⟨gB, [(y, b1), (z, b2), (w, b3)]⟩]).report
      = [(gA, [w]), (gB, [x])] := by
  simp [concat_msa, concatLoop, procInner, popRec, keysOf,
    hxy, hxz, hxw, hyz, hyw, hzw,
    Ne.symm hxy, Ne.symm hxz, Ne.symm hxw,
    Ne.symm hyz, Ne.symm hyw, Ne.symm hzw]

/-- C1 witness: the scenario at concrete distinct sample ids. -/
theorem C1_shared_rows_witness :
    (concat_msa ['-'] ⟨"A", [("x", ['a']), ("y", ['a']), ("z", ['a'])]⟩
        [⟨"B", [("y", ['b']), ("z", ['b']), ("w", ['b'])]⟩]).rows.map Prod.fst
      = ["y", "z"] ∧
    (concat_msa ['-'] ⟨"A", [("x", ['a']), ("y", ['a']), ("z", ['a'])]⟩
        [⟨"B", [("y", ['b']), ("z", ['b']), ("w", ['b'])]⟩]).report
      = [("A", ["w"]), ("B", ["x"])] :=
  C1_shared_rows_and_missing_report ['-'] ['a'] ['a'] ['a'] ['b'] ['b'] ['b']
    "A" "B" "x" "y" "z" "w" (by decide) (by decide) (by decide)
    (by decide) (by decide) (by decide)
